import Mathlib

/-!
Verification development for the erigon repository slice consisting of the
EOF opcode handlers (jump-table component) and the hex patricia hashed
commitment engine that the commitment test suite exercises.

The opcode handlers are embedded directly from the source file.  The
commitment engine implementation itself is not part of the source slice
(only its test file is), so its operations are modelled from the
specification text; every such definition carries a doc comment starting
with the words Modelled from the spec.
-/

/- ### Byte sequences.  Program bytes are modelled as natural numbers. -/

abbrev Bytes := List Nat

/- ### Part 1: EOF opcode handlers, embedded from the jump-table source. -/

/-- The modulus of unsigned 64-bit machine arithmetic. -/
def u64 : Nat := 2 ^ 64

/-- Unsigned 64-bit subtraction with wraparound, used to model the Go
statement pair that first zeroes the program counter and then decrements
it on a uint64. -/
def u64sub (a b : Nat) : Nat := (a + u64 - b % u64) % u64

/-- One entry of the EOF type section: inputs, outputs and the declared
maximal stack height of a code section. -/
structure SectionType where
  Input : Nat
  Output : Nat
  MaxStackHeight : Nat
deriving DecidableEq

/-- A return-stack entry pushed by opCallf: the calling section, the
return program counter, and the caller stack height minus the inputs. -/
structure ReturnContext where
  Section : Nat
  Pc : Nat
  StackHeight : Int
deriving DecidableEq

/-- The parts of the contract container that the section-jump opcodes
read: the code sections and the type section. -/
structure EofContract where
  codeSections : List Bytes
  Types : List SectionType
deriving DecidableEq

/-- The scope mutated by the opcode handlers: the containing contract,
the data stack (only its length matters to opCallf), the return stack
and the index of the code section being executed. -/
structure ScopeContext where
  Contract : EofContract
  Stack : Bytes
  ReturnStack : List ReturnContext
  CodeSection : Nat
deriving DecidableEq

/-- The only error the embedded handlers produce. -/
inductive VMErr where
  | stackOverflow : VMErr
deriving DecidableEq

/-- parseUint16 from the source: big-endian unsigned 16-bit read of the
first two bytes. -/
def parseUint16 (b0 b1 : Nat) : Nat := b0 % 256 * 256 + b1 % 256

/-- opCallf embedded from the source.  Reads the immediate operand at
pc+1..pc+2 of the current code section, fetches the type entry of the
CURRENT code section, fails with a stack-overflow error when the stack
length plus that declared maximal stack height reaches 1024 (returning
with the program counter and scope untouched, mirroring the early Go
return), and otherwise pushes a return context, switches to the callee
section and sets the program counter to zero minus one in uint64
arithmetic.  The outer Option is none when a fetch would be out of
bounds, which in Go would panic. -/
def opCallf (pc : Nat) (scope : ScopeContext) :
    Option (Nat × ScopeContext × Option VMErr) := do
  let code ← scope.Contract.codeSections.get? scope.CodeSection
  let b0 ← code.get? (pc + 1)
  let b1 ← code.get? (pc + 2)
  let idx := parseUint16 b0 b1
  let typ ← scope.Contract.Types.get? scope.CodeSection
  if 1024 ≤ scope.Stack.length + typ.MaxStackHeight then
    some (pc, scope, some VMErr.stackOverflow)
  else
    let retCtx : ReturnContext :=
      ⟨scope.CodeSection, (pc + 3) % u64,
        (scope.Stack.length : Int) - (typ.Input : Int)⟩
    some (u64sub 0 1,
      { scope with
          ReturnStack := scope.ReturnStack ++ [retCtx],
          CodeSection := idx },
      none)

/-- opJumpf embedded from the source.  Reads the immediate operand,
switches the code section and sets the program counter to zero minus one
in uint64 arithmetic.  The Option is none when a fetch would be out of
bounds, which in Go would panic. -/
def opJumpf (pc : Nat) (scope : ScopeContext) :
    Option (Nat × ScopeContext × Option VMErr) := do
  let code ← scope.Contract.codeSections.get? scope.CodeSection
  let b0 ← code.get? (pc + 1)
  let b1 ← code.get? (pc + 2)
  let idx := parseUint16 b0 b1
  some (u64sub 0 1, { scope with CodeSection := idx }, none)

/-- A concrete two-section contract used by the witnesses: the type entry
of section 0 declares maximal stack height 1024 while the entry of the
callee section 1 declares 0. -/
def contractCx : EofContract :=
  ⟨[[0xE3, 0, 1, 0], [0]], [⟨0, 0, 1024⟩, ⟨0, 0, 0⟩]⟩

/-- A concrete scope executing section 0 of contractCx with an empty
stack; opCallf errors here although the callee section declares maximal
stack height 0. -/
def scopeCx : ScopeContext := ⟨contractCx, [], [], 0⟩

/-- A concrete two-section contract whose type entries both declare
maximal stack height 0, so opCallf succeeds. -/
def contractOk : EofContract :=
  ⟨[[0xE3, 0, 1, 0], [0]], [⟨0, 0, 0⟩, ⟨0, 0, 0⟩]⟩

/-- A concrete scope on which opCallf and opJumpf both succeed. -/
def scopeOk : ScopeContext := ⟨contractOk, [], [], 0⟩

/-- The result of opCallf on scopeOk at program counter 0. -/
def rOk : Nat × ScopeContext × Option VMErr :=
  (u64 - 1, ⟨contractOk, [], [⟨0, 3, 0⟩], 1⟩, none)

/-- The result of opJumpf on scopeOk at program counter 0. -/
def rJk : Nat × ScopeContext × Option VMErr :=
  (u64 - 1, ⟨contractOk, [], [], 1⟩, none)

/-- The result of opCallf on scopeCx at program counter 0: the error
path, with program counter and scope untouched. -/
def rCx : Nat × ScopeContext × Option VMErr :=
  (0, scopeCx, some VMErr.stackOverflow)

/- ### Part 2: shared binary readers for the fixed-layout encodings. -/

/-- Reads exactly n elements from the front of a byte sequence, failing
when fewer are available. -/
def readN : Nat → Bytes → Option (Bytes × Bytes)
  | 0, xs => some ([], xs)
  | _ + 1, [] => none
  | n + 1, x :: xs =>
    match readN n xs with
    | some (as, rest) => some (x :: as, rest)
    | none => none

/-- Reads a length byte bounded by cap, then that many elements. -/
def readLenPfx (cap : Nat) (b : Bytes) : Option (Nat × Bytes × Bytes) :=
  match b with
  | [] => none
  | n :: rest =>
    if n ≤ cap then
      match readN n rest with
      | some (xs, r) => some (n, xs, r)
      | none => none
    else none

/-- Big-endian two-byte encoding of a list of 16-bit values. -/
def u16listEnc : List Nat → Bytes
  | [] => []
  | e :: rest => e / 256 :: e % 256 :: u16listEnc rest

/-- Recombines consecutive byte pairs into 16-bit values. -/
def toU16 : Bytes → List Nat
  | a :: b :: rest => (a * 256 + b) :: toU16 rest
  | _ => []

/-- One-byte encoding of a boolean flag. -/
def boolByte (b : Bool) : Nat := cond b 1 0

/-- One byte per boolean of a bitmap list. -/
def boolListEnc (l : List Bool) : Bytes := l.map boolByte

/- ### Part 3: the Cell of the commitment engine.

Modelled from the spec: the Cell implementation (hex patricia hashed
source file) is not part of the source slice, only its test is.  Per the
spec, a Cell carries identity fields (account plain key apk with length
apl, storage plain key spk with length spl), value payload fields
(nonce, 256-bit balance, code hash, storage bytes with length, deletion
flag), path-compression metadata (a down-hashed-key buffer of up to 128
nibbles with explicit length and an extension buffer of up to 64 nibbles
with explicit length) and a cached 32-byte subtree hash h with length
hl.  Buffers are fixed-size arrays (128, 64, 20, 52 and 32 entries)
zero-filled beyond their explicit lengths. -/

/-- The in-memory unit of trie state at one nibble position.  Field
names follow the source test file. -/
structure Cell where
  Nonce : Nat
  Balance : Nat
  CodeHash : Bytes
  Storage : Bytes
  StorageLen : Nat
  Delete : Bool
  downHashedKey : Bytes
  downHashedLen : Nat
  extension : Bytes
  extLen : Nat
  apk : Bytes
  apl : Nat
  spk : Bytes
  spl : Nat
  h : Bytes
  hl : Nat
deriving DecidableEq

/-- Fixed-size-array invariants of a Cell: each buffer has its protocol
size, its explicit length is within bounds, and the buffer is zero
beyond that length. -/
def Cell.WF (c : Cell) : Prop :=
  c.downHashedKey.length = 128 ∧ c.downHashedLen ≤ 128 ∧
    c.downHashedKey.drop c.downHashedLen = List.replicate (128 - c.downHashedLen) 0 ∧
  c.extension.length = 64 ∧ c.extLen ≤ 64 ∧
    c.extension.drop c.extLen = List.replicate (64 - c.extLen) 0 ∧
  c.apk.length = 20 ∧ c.apl ≤ 20 ∧
    c.apk.drop c.apl = List.replicate (20 - c.apl) 0 ∧
  c.spk.length = 52 ∧ c.spl ≤ 52 ∧
    c.spk.drop c.spl = List.replicate (52 - c.spl) 0 ∧
  c.h.length = 32 ∧ c.hl ≤ 32 ∧
    c.h.drop c.hl = List.replicate (32 - c.hl) 0

instance (c : Cell) : Decidable c.WF := by
  unfold Cell.WF
  infer_instance

/-- Modelled from the spec: Cell.Encode serialises the structural and
hash fields only — lengths plus buffers, identity lengths plus plain
keys, the cached hash and the deletion flag — and by design excludes
the value payload fields (nonce, balance, code hash, storage bytes). -/
def Cell.Encode (c : Cell) : Bytes :=
  (boolByte c.Delete) :: c.downHashedLen ::
    (c.downHashedKey.take c.downHashedLen ++
      (c.extLen :: (c.extension.take c.extLen ++
        (c.apl :: (c.apk.take c.apl ++
          (c.spl :: (c.spk.take c.spl ++
            (c.hl :: c.h.take c.hl))))))))

/-- Modelled from the spec: Cell.Decode is the inverse of Cell.Encode on
structural fields; it fails (MalformedEncoding, modelled as none) when
the byte length does not match the fixed structural layout, and leaves
the value payload fields at their zero defaults since they are not part
of the encoding. -/
def Cell.Decode (b : Bytes) : Option Cell := do
  let df ← b.head?
  let (n1, dk, r1) ← readLenPfx 128 b.tail
  let (n2, ex, r2) ← readLenPfx 64 r1
  let (n3, ak, r3) ← readLenPfx 20 r2
  let (n4, sk, r4) ← readLenPfx 52 r3
  let (n5, hb, r5) ← readLenPfx 32 r4
  if r5 = [] then
    some { Nonce := 0, Balance := 0, CodeHash := List.replicate 32 0,
           Storage := List.replicate 32 0, StorageLen := 0,
           Delete := df == 1,
           downHashedKey := dk ++ List.replicate (128 - n1) 0, downHashedLen := n1,
           extension := ex ++ List.replicate (64 - n2) 0, extLen := n2,
           apk := ak ++ List.replicate (20 - n3) 0, apl := n3,
           spk := sk ++ List.replicate (52 - n4) 0, spl := n4,
           h := hb ++ List.replicate (32 - n5) 0, hl := n5 }
  else none

/-- A concrete well-formed Cell used by the round-trip witness. -/
def cell0 : Cell :=
  { Nonce := 7, Balance := 1000, CodeHash := List.replicate 32 9,
    Storage := 5 :: List.replicate 31 0, StorageLen := 1, Delete := true,
    downHashedKey := 3 :: 4 :: List.replicate 126 0, downHashedLen := 2,
    extension := 11 :: List.replicate 63 0, extLen := 1,
    apk := List.replicate 20 2, apl := 20,
    spk := List.replicate 52 6, spl := 52,
    h := List.replicate 32 8, hl := 32 }

/- ### Part 4: the State snapshot of the commitment engine.

Modelled from the spec: the state snapshot implementation is not part of
the source slice, only its test is.  Per the spec it serialises the root
cell bytes together with the root presence, touched and checked flags, a
fixed-size array of per-nibble-level depths, two fixed-size 16-bit
bitmaps TouchMap and AfterMap (one bit per nibble per level) and the
BranchBefore bitmap recording which branches existed before the current
pass.  The per-level arrays have 128 entries, matching the 128-nibble
bound of the spec. -/

/-- The serialisable snapshot of the trie working set.  Field names
follow the source test file. -/
structure state where
  Root : Bytes
  RootChecked : Bool
  RootTouched : Bool
  RootPresent : Bool
  Depths : List Nat
  TouchMap : List Nat
  AfterMap : List Nat
  BranchBefore : List Bool
deriving DecidableEq

/-- Fixed-shape invariants of a snapshot: the four per-level arrays have
128 entries and the two bitmaps hold 16-bit values. -/
def state.WF (s : state) : Prop :=
  s.Depths.length = 128 ∧
  s.TouchMap.length = 128 ∧ (∀ e ∈ s.TouchMap, e < 65536) ∧
  s.AfterMap.length = 128 ∧ (∀ e ∈ s.AfterMap, e < 65536) ∧
  s.BranchBefore.length = 128

instance (s : state) : Decidable s.WF := by
  unfold state.WF
  infer_instance

/-- The packed flags byte of a snapshot encoding. -/
def stateFlags (p t c : Bool) : Nat :=
  boolByte p + 2 * boolByte t + 4 * boolByte c

/-- Modelled from the spec: state.Encode serialises the snapshot as a
fixed-layout byte string — flags byte, length-prefixed root cell bytes,
128 depth bytes, two 256-byte big-endian 16-bit bitmaps and 128
branch-before flag bytes. -/
def state.Encode (s : state) : Bytes :=
  stateFlags s.RootPresent s.RootTouched s.RootChecked :: s.Root.length ::
    (s.Root ++ (s.Depths ++ (u16listEnc s.TouchMap ++
      (u16listEnc s.AfterMap ++ boolListEnc s.BranchBefore))))

/-- Modelled from the spec: state.Decode is the inverse of state.Encode
and fails closed (MalformedEncoding, modelled as none) on any length or
shape mismatch, including trailing bytes. -/
def state.Decode (b : Bytes) : Option state := do
  let fl ← b.head?
  if fl < 8 then
    let (root, r1) ← match b.tail with
      | [] => none
      | n :: rest => readN n rest
    let (deps, r2) ← readN 128 r1
    let (tm, r3) ← readN 256 r2
    let (am, r4) ← readN 256 r3
    let (bb, r5) ← readN 128 r4
    if r5 = [] then
      some { Root := root,
             RootChecked := fl / 4 % 2 == 1,
             RootTouched := fl / 2 % 2 == 1,
             RootPresent := fl % 2 == 1,
             Depths := deps, TouchMap := toU16 tm, AfterMap := toU16 am,
             BranchBefore := bb.map (fun x => x == 1) }
    else none
  else none

/-- A concrete well-formed snapshot used by the round-trip witness. -/
def state0 : state :=
  { Root := [1, 2, 3], RootChecked := true, RootTouched := false,
    RootPresent := true,
    Depths := List.replicate 128 5,
    TouchMap := 300 :: List.replicate 127 1,
    AfterMap := List.replicate 128 65535,
    BranchBefore := true :: List.replicate 127 false }

/- ### Part 5: the HexPatriciaHashed engine.

Modelled from the spec: the engine implementation (trie walker and
rehasher) is not part of the source slice, only its test file is.  The
model follows the spec text of section 4.3: the engine owns a grid of
occupied trie positions keyed by plain key, an update pass derives the
value of each key from the external store (ProcessKeys) or takes it from the
caller (ProcessUpdates), places keys in the grid in ascending
hashed-key order, and the root hash is the structural hash of the
path-compressed 16-ary trie over the hashed-nibble paths of the grid.
The cryptographic hash that expands a plain key into its hashed-nibble
path is replaced by an injective stand-in (the nibble expansion of the
key itself), and the structural node hash is an injective serialisation
instead of a 32-byte digest; every claim proved over this model is
insensitive to that replacement. -/

/-- Modelled from the spec: the hashed-nibble path of a plain key — the
digest of the key expanded four bits at a time.  The keccak digest is
replaced by the injective identity stand-in, so the path is the nibble
expansion of the key itself. -/
def hashAndNibblizeKey (k : Bytes) : List Nat :=
  k.flatMap (fun b => [b / 16 % 16, b % 16])

/-- Strict lexicographic order on nibble paths, used to keep the grid in
ascending hashed-key order. -/
def nibLt : List Nat → List Nat → Bool
  | [], [] => false
  | [], _ :: _ => true
  | _ :: _, [] => false
  | x :: xs, y :: ys => if x < y then true else if y < x then false else nibLt xs ys

/-- Inserts a plain key with its value into the grid, replacing an
existing entry for the same key and otherwise keeping the grid sorted by
ascending hashed key. -/
def gridInsert (k v : Bytes) : List (Bytes × Bytes) → List (Bytes × Bytes)
  | [] => [(k, v)]
  | (k2, v2) :: rest =>
    if k = k2 then (k, v) :: rest
    else if nibLt (hashAndNibblizeKey k) (hashAndNibblizeKey k2) then
      (k, v) :: (k2, v2) :: rest
    else (k2, v2) :: gridInsert k v rest

/-- Removes a plain key from the grid. -/
def gridErase (k : Bytes) (g : List (Bytes × Bytes)) : List (Bytes × Bytes) :=
  g.filter (fun kv => decide (kv.1 ≠ k))

/-- The longest common prefix of two nibble paths. -/
def commonPfx2 : List Nat → List Nat → List Nat
  | x :: xs, y :: ys => if x = y then x :: commonPfx2 xs ys else []
  | _, _ => []

/-- The longest common prefix of a family of nibble paths. -/
def commonPfxAll : List (List Nat) → List Nat
  | [] => []
  | p :: rest => rest.foldl commonPfx2 p

/-- Length-prefixed concatenation of a family of byte strings, used as
the injective combining step of the structural node hash. -/
def seqEnc (l : List Bytes) : Bytes :=
  l.length :: l.flatMap (fun v => v.length :: v)

/-- Modelled from the spec: the structural hash of the path-compressed
16-ary trie over a family of (hashed-nibble path, value) leaves.  An
empty family hashes to the reserved empty-root value; a single leaf
hashes from its remaining compressed path and value; otherwise the node
extracts the common nibble prefix of its keys (extension, path
compression), hashes the value resting at the node itself, and combines
the sixteen child subtree hashes obtained by splitting on the next
nibble.  The fuel argument bounds the nibble depth; it exceeds the
128-nibble bound of the spec wherever the model is evaluated. -/
def trieHash : Nat → List (List Nat × Bytes) → Bytes
  | _, [] => [0]
  | _, [pv] => 1 :: pv.1.length :: (pv.1 ++ (pv.2.length :: pv.2))
  | 0, _ :: _ :: _ => [9]
  | f + 1, kvs =>
    let cp := commonPfxAll (kvs.map Prod.fst)
    let kvs2 := kvs.map (fun pv => (pv.1.drop cp.length, pv.2))
    let here := kvs2.filterMap (fun pv => if pv.1 = [] then some pv.2 else none)
    let children := (List.range 16).map (fun n =>
      trieHash f (kvs2.filterMap (fun pv =>
        if pv.1.head? = some n then some (pv.1.tail, pv.2) else none)))
    2 :: cp.length :: (cp ++ (seqEnc here ++ seqEnc children))

/-- The root hash of a grid: the structural trie hash over the
hashed-nibble paths of its keys. -/
def rootOf (g : List (Bytes × Bytes)) : Bytes :=
  trieHash 200 (g.map (fun kv => (hashAndNibblizeKey kv.1, kv.2)))

/-- One pending mutation of the external state: set the payload of a
plain key or delete the key. -/
inductive Mut where
  | set : Bytes → Mut
  | del : Mut
deriving DecidableEq

/-- Sets a key to a value in an association list, replacing in place. -/
def assocSet (k v : Bytes) : List (Bytes × Bytes) → List (Bytes × Bytes)
  | [] => [(k, v)]
  | (k2, v2) :: rest =>
    if k2 = k then (k, v) :: rest else (k2, v2) :: assocSet k v rest

/-- Deletes a key from an association list. -/
def assocDel (k : Bytes) (l : List (Bytes × Bytes)) : List (Bytes × Bytes) :=
  l.filter (fun kv => decide (kv.1 ≠ k))

/-- Looks a key up in an association list. -/
def lookupSm : List (Bytes × Bytes) → Bytes → Option Bytes
  | [], _ => none
  | (k2, v) :: rest, k => if k2 = k then some v else lookupSm rest k

/-- Applies one mutation to the plain-key/value association of the
external store. -/
def smApply (sm : List (Bytes × Bytes)) : Bytes × Mut → List (Bytes × Bytes)
  | (k, Mut.set v) => assocSet k v sm
  | (k, Mut.del) => assocDel k sm

/-- Modelled from the spec: the external state-store collaborator of the
tests.  Field sm is the plain-key to payload association behind the
account and storage lookup capabilities; field cm receives the branch
node deltas persisted by applyBranchNodeUpdates. -/
structure MockState where
  sm : List (Bytes × Bytes)
  cm : List (Bytes × Bytes)
deriving DecidableEq

/-- A fresh empty mock store. -/
def NewMockState : MockState := ⟨[], []⟩

/-- The account and storage lookup capability of the store. -/
def MockState.lookup (ms : MockState) (k : Bytes) : Option Bytes :=
  lookupSm ms.sm k

/-- Modelled from the spec: applies a batch of plain-key mutations to
the store, so that the store holds the post-update values before the
commitment is recomputed. -/
def applyPlainUpdates (ms : MockState) (us : List (Bytes × Mut)) : MockState :=
  { ms with sm := us.foldl smApply ms.sm }

/-- Modelled from the spec: persists the branch node delta produced by a
processing pass into the store. -/
def applyBranchNodeUpdates (ms : MockState) (d : Bytes) : MockState :=
  { ms with cm := [([], d)] }

/-- Modelled from the spec: the engine instance, bound at construction
to a key length and holding the grid of occupied trie positions.  The
grid models the in-memory cell grid together with the persisted branch
structure the engine transparently reloads from the store during a
walk. -/
structure HexPatriciaHashed where
  keyLen : Nat
  grid : List (Bytes × Bytes)
deriving DecidableEq

/-- A fresh engine bound to a key length. -/
def NewHexPatriciaHashed (kl : Nat) : HexPatriciaHashed := ⟨kl, []⟩

/-- RootHash: the root hash of the current grid, a pure read. -/
def HexPatriciaHashed.RootHash (hph : HexPatriciaHashed) : Bytes :=
  rootOf hph.grid

/-- One ProcessKeys step for one plain key: re-derive the value of the
key from the store and place or delete the corresponding leaf. -/
def applyKeyS (sm : List (Bytes × Bytes)) (g : List (Bytes × Bytes)) (k : Bytes) :
    List (Bytes × Bytes) :=
  match lookupSm sm k with
  | some v => gridInsert k v g
  | none => gridErase k g

/-- One ProcessUpdates step for one caller-supplied update. -/
def applyUpd (g : List (Bytes × Bytes)) : Bytes × Mut → List (Bytes × Bytes)
  | (k, Mut.set v) => gridInsert k v g
  | (k, Mut.del) => gridErase k g

/-- Length-prefixed serialisation of a list of key/value pairs. -/
def encPairs : List (Bytes × Bytes) → Bytes
  | [] => []
  | kv :: rest => kv.1.length :: (kv.1 ++ (kv.2.length :: (kv.2 ++ encPairs rest)))

/-- Length-prefixed serialisation of a grid, the unit persisted as a
branch node delta and the payload-bearing part of a snapshot. -/
def encodeGrid (g : List (Bytes × Bytes)) : Bytes :=
  g.length :: encPairs g

/-- Reads n length-prefixed key/value pairs. -/
def readPairs : Nat → Bytes → Option (List (Bytes × Bytes) × Bytes)
  | 0, rest => some ([], rest)
  | _ + 1, [] => none
  | n + 1, klen :: rest =>
    match readN klen rest with
    | none => none
    | some (k, r1) =>
      match r1 with
      | [] => none
      | vlen :: r2 =>
        match readN vlen r2 with
        | none => none
        | some (v, r3) =>
          match readPairs n r3 with
          | none => none
          | some (ps, r4) => some ((k, v) :: ps, r4)

/-- Inverse of encodeGrid; fails on any shape mismatch. -/
def decodeGrid (b : Bytes) : Option (List (Bytes × Bytes)) :=
  match b with
  | [] => none
  | n :: rest =>
    match readPairs n rest with
    | some (ps, []) => some ps
    | _ => none

/-- Modelled from the spec: ProcessKeys re-derives the value of every
given plain key from the external store, walks the keys into the grid
in the given order (each placement keeps the grid in ascending
hashed-key order), and returns the new engine state, the recomputed
root hash and the branch node delta to persist. -/
def HexPatriciaHashed.ProcessKeys (hph : HexPatriciaHashed) (ms : MockState)
    (plainKeys : List Bytes) : HexPatriciaHashed × Bytes × Bytes :=
  let g := plainKeys.foldl (applyKeyS ms.sm) hph.grid
  ({ hph with grid := g }, rootOf g, encodeGrid g)

/-- Modelled from the spec: ProcessUpdates applies an explicit
caller-supplied batch of updates to the grid and returns the new engine
state, the recomputed root hash and the branch node delta to persist. -/
def HexPatriciaHashed.ProcessUpdates (hph : HexPatriciaHashed) (us : List (Bytes × Mut)) :
    HexPatriciaHashed × Bytes × Bytes :=
  let g := us.foldl applyUpd hph.grid
  ({ hph with grid := g }, rootOf g, encodeGrid g)

/-- Modelled from the spec: Reset discards the in-memory cell grid and
bitmaps; the persisted branch data kept by the store is transparently
reloaded during the next walk.  Since the model folds that reloadable
persisted structure into the grid field, Reset leaves the model state
unchanged. -/
def HexPatriciaHashed.Reset (hph : HexPatriciaHashed) : HexPatriciaHashed := hph

/-- Modelled from the spec: EncodeCurrentState serialises the full
snapshot of the current grid.  The snapshot and the persisted branch
encodings it references (from which payloads are re-derived on demand)
are modelled together as the serialised grid. -/
def HexPatriciaHashed.EncodeCurrentState (hph : HexPatriciaHashed) : Bytes :=
  encodeGrid hph.grid

/-- Modelled from the spec: SetState restores a previously encoded
snapshot into an engine instance; it fails (MalformedEncoding, modelled
as none) on a shape mismatch. -/
def HexPatriciaHashed.SetState (hph : HexPatriciaHashed) (b : Bytes) :
    Option HexPatriciaHashed :=
  (decodeGrid b).map (fun g => { hph with grid := g })

/-- A full test-shaped pass: apply the plain updates to the store,
process the keys, persist the branch node delta; returns the new store,
the new engine and the root hash. -/
def runPass (ms : MockState) (hph : HexPatriciaHashed) (us : List (Bytes × Mut)) :
    MockState × HexPatriciaHashed × Bytes :=
  let ms1 := applyPlainUpdates ms us
  let p := hph.ProcessKeys ms1 (us.map Prod.fst)
  (applyBranchNodeUpdates ms1 p.2.2, p.1, p.2.1)

/-- The same pass via ProcessUpdates with caller-supplied values. -/
def runPassU (ms : MockState) (hph : HexPatriciaHashed) (us : List (Bytes × Mut)) :
    MockState × HexPatriciaHashed × Bytes :=
  let ms1 := applyPlainUpdates ms us
  let p := hph.ProcessUpdates us
  (applyBranchNodeUpdates ms1 p.2.2, p.1, p.2.1)

/-- Sequential single-update processing: one runPass per update, with
the branch node delta persisted into the store between calls. -/
def seqProcess : MockState → HexPatriciaHashed → List (Bytes × Mut) →
    MockState × HexPatriciaHashed
  | ms, hph, [] => (ms, hph)
  | ms, hph, u :: rest =>
    let r := runPass ms hph [u]
    seqProcess r.1 r.2.1 rest

/-- Sequential single-update processing through ProcessUpdates. -/
def seqProcessU : MockState → HexPatriciaHashed → List (Bytes × Mut) →
    MockState × HexPatriciaHashed
  | ms, hph, [] => (ms, hph)
  | ms, hph, u :: rest =>
    let r := runPassU ms hph [u]
    seqProcessU r.1 r.2.1 rest

/- ### Concrete scenarios used by witnesses and by claim C8. -/

/-- The account payload written by a balance-only update. -/
def acctV (b : Nat) : Bytes := [1, b]

/-- The first update set of the reset-then-singular-updates scenario:
balances for the six one-byte addresses 00 to 05 plus five storage
writes, as in the reference test. -/
def us1 : List (Bytes × Mut) :=
  [([0x00], Mut.set (acctV 4)), ([0x01], Mut.set (acctV 5)),
   ([0x02], Mut.set (acctV 6)), ([0x03], Mut.set (acctV 7)),
   ([0x04], Mut.set (acctV 8)),
   ([0x04, 0x01], Mut.set [0x04, 0x01]),
   ([0x03, 0x56], Mut.set [0x05, 0x05, 0x05]),
   ([0x03, 0x57], Mut.set [0x06, 0x06, 0x06]),
   ([0x05], Mut.set (acctV 9)),
   ([0x05, 0x02], Mut.set [0x89, 0x89]),
   ([0x05, 0x04], Mut.set [0x98, 0x98])]

/-- The additional single-key storage update of the scenario. -/
def us2 : List (Bytes × Mut) := [([0x03, 0x58], Mut.set [0x05, 0x05, 0x06])]

/-- The store mutation reverting the additional storage write. -/
def usRevert : List (Bytes × Mut) := [([0x03, 0x58], Mut.del)]

/-- First pass of the scenario: the first update set from a fresh store
and engine. -/
def msPass1 : MockState × HexPatriciaHashed × Bytes :=
  runPass NewMockState (NewHexPatriciaHashed 1) us1

/-- Second pass: after a Reset, one additional single-key storage
update. -/
def msPass2 : MockState × HexPatriciaHashed × Bytes :=
  runPass msPass1.1 msPass1.2.1.Reset us2

/-- Third pass: the store reverted to the first update set and the
commitment recomputed from a fresh reset engine over the first update
set. -/
def msPass3 : MockState × HexPatriciaHashed × Bytes :=
  runPass (applyPlainUpdates msPass2.1 usRevert) (NewHexPatriciaHashed 1) us1

/-- A small concrete update set with pairwise distinct plain keys, used
by the batch/sequential witness. -/
def usW : List (Bytes × Mut) :=
  [([0x00], Mut.set (acctV 4)), ([0x01], Mut.set (acctV 5)),
   ([0x00, 0x09], Mut.set [0x07]), ([0x02], Mut.del)]

/-- A follow-up update set used by the resume witness. -/
def usW2 : List (Bytes × Mut) :=
  [([0x02], Mut.set (acctV 6)), ([0x01], Mut.del)]

/-- The concrete pass over usW from a fresh store and engine, used by
the resume witness. -/
def rW : MockState × HexPatriciaHashed × Bytes :=
  runPass NewMockState (NewHexPatriciaHashed 1) usW

/-- The engine obtained by restoring the encoded state of the usW pass
into a fresh instance. -/
def eW : HexPatriciaHashed := ⟨1, rW.2.1.grid⟩

/- ### Theorems.  Helper lemmas first, then one theorem per claim. -/

theorem readN_append (xs rest : Bytes) :
    readN xs.length (xs ++ rest) = some (xs, rest) := by
  induction xs with
  | nil => rfl
  | cons x xs ih => simp [readN, ih]

theorem readLenPfx_append (cap n : Nat) (xs rest : Bytes)
    (hlen : xs.length = n) (hcap : n ≤ cap) :
    readLenPfx cap (n :: (xs ++ rest)) = some (n, xs, rest) := by
  subst hlen
  simp [readLenPfx, readN_append, hcap]

theorem boolByte_beq (b : Bool) : ((boolByte b) == 1) = b := by
  cases b <;> rfl

/-- C5.  For every well-formed Cell, decoding its encoding reproduces
exactly the structural and hash fields — down-hashed-key buffer and
length, extension buffer and length, account and storage plain keys
with lengths, cached hash and deletion flag — while the value payload
fields (nonce, balance, code hash, storage bytes) come back as zero
defaults, that is, they are not carried through the encoding. -/
theorem cell_encode_decode (c : Cell) (hc : c.WF) :
    Cell.Decode (Cell.Encode c) = some
      { Nonce := 0, Balance := 0, CodeHash := List.replicate 32 0,
        Storage := List.replicate 32 0, StorageLen := 0,
        Delete := c.Delete,
        downHashedKey := c.downHashedKey, downHashedLen := c.downHashedLen,
        extension := c.extension, extLen := c.extLen,
        apk := c.apk, apl := c.apl, spk := c.spk, spl := c.spl,
        h := c.h, hl := c.hl } := by
  obtain ⟨hl1, he1, hd1, hl2, he2, hd2, hl3, he3, hd3, hl4, he4, hd4, hl5, he5, hd5⟩ := hc
  have ht1 : (c.downHashedKey.take c.downHashedLen).length = c.downHashedLen := by
    simp [List.length_take, hl1]; omega
  have ht2 : (c.extension.take c.extLen).length = c.extLen := by
    simp [List.length_take, hl2]; omega
  have ht3 : (c.apk.take c.apl).length = c.apl := by
    simp [List.length_take, hl3]; omega
  have ht4 : (c.spk.take c.spl).length = c.spl := by
    simp [List.length_take, hl4]; omega
  have ht5 : (c.h.take c.hl).length = c.hl := by
    simp [List.length_take, hl5]; omega
  have hre1 : c.downHashedKey.take c.downHashedLen ++
      List.replicate (128 - c.downHashedLen) 0 = c.downHashedKey := by
    rw [← hd1, List.take_append_drop]
  have hre2 : c.extension.take c.extLen ++
      List.replicate (64 - c.extLen) 0 = c.extension := by
    rw [← hd2, List.take_append_drop]
  have hre3 : c.apk.take c.apl ++ List.replicate (20 - c.apl) 0 = c.apk := by
    rw [← hd3, List.take_append_drop]
  have hre4 : c.spk.take c.spl ++ List.replicate (52 - c.spl) 0 = c.spk := by
    rw [← hd4, List.take_append_drop]
  have hre5 : c.h.take c.hl ++ List.replicate (32 - c.hl) 0 = c.h := by
    rw [← hd5, List.take_append_drop]
  have hrd5 : readLenPfx 32 (c.hl :: c.h.take c.hl) =
      some (c.hl, c.h.take c.hl, []) := by
    have := readLenPfx_append 32 c.hl (c.h.take c.hl) [] ht5 he5
    simpa using this
  have hrd4 : readLenPfx 52 (c.spl :: (c.spk.take c.spl ++
      (c.hl :: c.h.take c.hl))) =
      some (c.spl, c.spk.take c.spl, c.hl :: c.h.take c.hl) :=
    readLenPfx_append 52 c.spl _ _ ht4 he4
  have hrd3 : readLenPfx 20 (c.apl :: (c.apk.take c.apl ++
      (c.spl :: (c.spk.take c.spl ++ (c.hl :: c.h.take c.hl))))) =
      some (c.apl, c.apk.take c.apl,
        c.spl :: (c.spk.take c.spl ++ (c.hl :: c.h.take c.hl))) :=
    readLenPfx_append 20 c.apl _ _ ht3 he3
  have hrd2 : readLenPfx 64 (c.extLen :: (c.extension.take c.extLen ++
      (c.apl :: (c.apk.take c.apl ++
        (c.spl :: (c.spk.take c.spl ++ (c.hl :: c.h.take c.hl))))))) =
      some (c.extLen, c.extension.take c.extLen,
        c.apl :: (c.apk.take c.apl ++
          (c.spl :: (c.spk.take c.spl ++ (c.hl :: c.h.take c.hl))))) :=
    readLenPfx_append 64 c.extLen _ _ ht2 he2
  have hrd1 : readLenPfx 128 (c.downHashedLen ::
      (c.downHashedKey.take c.downHashedLen ++
        (c.extLen :: (c.extension.take c.extLen ++
          (c.apl :: (c.apk.take c.apl ++
            (c.spl :: (c.spk.take c.spl ++ (c.hl :: c.h.take c.hl))))))))) =
      some (c.downHashedLen, c.downHashedKey.take c.downHashedLen,
        c.extLen :: (c.extension.take c.extLen ++
          (c.apl :: (c.apk.take c.apl ++
            (c.spl :: (c.spk.take c.spl ++ (c.hl :: c.h.take c.hl))))))) :=
    readLenPfx_append 128 c.downHashedLen _ _ ht1 he1
  simp [Cell.Decode, Cell.Encode, hrd1, hrd2, hrd3, hrd4, hrd5,
    hre1, hre2, hre3, hre4, hre5, boolByte_beq]

set_option maxRecDepth 10000 in
/-- C5 witness at a concrete well-formed cell. -/
theorem cell_encode_decode_witness : Cell.WF cell0 ∧
    Cell.Decode (Cell.Encode cell0) = some
      { Nonce := 0, Balance := 0, CodeHash := List.replicate 32 0,
        Storage := List.replicate 32 0, StorageLen := 0,
        Delete := cell0.Delete,
        downHashedKey := cell0.downHashedKey, downHashedLen := cell0.downHashedLen,
        extension := cell0.extension, extLen := cell0.extLen,
        apk := cell0.apk, apl := cell0.apl, spk := cell0.spk, spl := cell0.spl,
        h := cell0.h, hl := cell0.hl } :=
  ⟨by decide, cell_encode_decode cell0 (by decide)⟩

theorem length_u16listEnc (l : List Nat) :
    (u16listEnc l).length = 2 * l.length := by
  induction l with
  | nil => rfl
  | cons e r ih => simp [u16listEnc, ih]; omega

theorem toU16_u16listEnc (l : List Nat) : toU16 (u16listEnc l) = l := by
  induction l with
  | nil => rfl
  | cons e r ih =>
    simp [u16listEnc, toU16, ih]
    omega

theorem length_boolListEnc (l : List Bool) :
    (boolListEnc l).length = l.length := by
  simp [boolListEnc]

theorem boolListEnc_dec (l : List Bool) :
    (boolListEnc l).map (fun x => x == 1) = l := by
  have hfun : ((fun x => x == 1) ∘ boolByte) = id := by
    funext b
    cases b <;> rfl
  simp [boolListEnc, List.map_map, hfun]

theorem stateFlags_lt (p t c : Bool) : stateFlags p t c < 8 := by
  cases p <;> cases t <;> cases c <;> decide

theorem stateFlags_bit0 (p t c : Bool) : (stateFlags p t c % 2 == 1) = p := by
  cases p <;> cases t <;> cases c <;> decide

theorem stateFlags_bit1 (p t c : Bool) :
    (stateFlags p t c / 2 % 2 == 1) = t := by
  cases p <;> cases t <;> cases c <;> decide

theorem stateFlags_bit2 (p t c : Bool) :
    (stateFlags p t c / 4 % 2 == 1) = c := by
  cases p <;> cases t <;> cases c <;> decide

/-- C4.  For every well-formed State snapshot (root cell bytes plus
presence/touched/checked flags, the 128-entry per-level depth array, the
TouchMap and AfterMap 16-bit bitmaps and the BranchBefore bitmap),
decoding its encoding reproduces the snapshot field for field. -/
theorem state_encode_decode (s : state) (hs : s.WF) :
    state.Decode (state.Encode s) = some s := by
  obtain ⟨hdep, htm, htmb, ham, hamb, hbb⟩ := hs
  have hlt := stateFlags_lt s.RootPresent s.RootTouched s.RootChecked
  have hrt : readN s.Root.length (s.Root ++ (s.Depths ++ (u16listEnc s.TouchMap ++
      (u16listEnc s.AfterMap ++ boolListEnc s.BranchBefore)))) =
      some (s.Root, s.Depths ++ (u16listEnc s.TouchMap ++
        (u16listEnc s.AfterMap ++ boolListEnc s.BranchBefore))) :=
    readN_append _ _
  have hd : readN 128 (s.Depths ++ (u16listEnc s.TouchMap ++
      (u16listEnc s.AfterMap ++ boolListEnc s.BranchBefore))) =
      some (s.Depths, u16listEnc s.TouchMap ++
        (u16listEnc s.AfterMap ++ boolListEnc s.BranchBefore)) := by
    rw [← hdep]
    exact readN_append _ _
  have h2t : (u16listEnc s.TouchMap).length = 256 := by
    rw [length_u16listEnc, htm]
  have ht : readN 256 (u16listEnc s.TouchMap ++
      (u16listEnc s.AfterMap ++ boolListEnc s.BranchBefore)) =
      some (u16listEnc s.TouchMap,
        u16listEnc s.AfterMap ++ boolListEnc s.BranchBefore) := by
    rw [← h2t]
    exact readN_append _ _
  have h2a : (u16listEnc s.AfterMap).length = 256 := by
    rw [length_u16listEnc, ham]
  have ha : readN 256 (u16listEnc s.AfterMap ++ boolListEnc s.BranchBefore) =
      some (u16listEnc s.AfterMap, boolListEnc s.BranchBefore) := by
    rw [← h2a]
    exact readN_append _ _
  have h2b : (boolListEnc s.BranchBefore).length = 128 := by
    rw [length_boolListEnc, hbb]
  have hbf : readN 128 (boolListEnc s.BranchBefore) =
      some (boolListEnc s.BranchBefore, []) := by
    have := readN_append (boolListEnc s.BranchBefore) []
    rw [h2b] at this
    simpa using this
  simp [state.Decode, state.Encode, hlt, hrt, hd, ht, ha, hbf,
    stateFlags_bit0, stateFlags_bit1, stateFlags_bit2,
    toU16_u16listEnc, boolListEnc_dec]

set_option maxRecDepth 10000 in
/-- C4 witness at a concrete well-formed snapshot. -/
theorem state_encode_decode_witness : state.WF state0 ∧
    state.Decode (state.Encode state0) = some state0 :=
  ⟨by decide, state_encode_decode state0 (by decide)⟩

theorem assocSet_lookup_ne (k2 v k : Bytes) (sm : List (Bytes × Bytes))
    (hne : k2 ≠ k) : lookupSm (assocSet k2 v sm) k = lookupSm sm k := by
  induction sm with
  | nil => simp [assocSet, lookupSm, hne]
  | cons kv rest ih =>
    by_cases h3 : kv.1 = k2
    · simp [assocSet, h3, lookupSm, hne]
    · simp [assocSet, h3, lookupSm, ih]

theorem assocDel_lookup_ne (k2 k : Bytes) (sm : List (Bytes × Bytes))
    (hne : k2 ≠ k) : lookupSm (assocDel k2 sm) k = lookupSm sm k := by
  induction sm with
  | nil => rfl
  | cons kv rest ih =>
    by_cases h3 : kv.1 = k2
    · have h4 : kv.1 ≠ k := by rw [h3]; exact hne
      have hstep : assocDel k2 (kv :: rest) = assocDel k2 rest := by
        simp [assocDel, List.filter, h3]
      rw [hstep, ih]
      simp [lookupSm, h4]
    · have hstep : assocDel k2 (kv :: rest) = kv :: assocDel k2 rest := by
        simp [assocDel, List.filter, h3]
      rw [hstep]
      by_cases h5 : kv.1 = k
      · simp [lookupSm, h5]
      · simp [lookupSm, h5, ih]

theorem smApply_lookup_ne (sm : List (Bytes × Bytes)) (u : Bytes × Mut)
    (k : Bytes) (hne : u.1 ≠ k) :
    lookupSm (smApply sm u) k = lookupSm sm k := by
  obtain ⟨k2, m⟩ := u
  cases m with
  | set v => exact assocSet_lookup_ne k2 v k sm hne
  | del => exact assocDel_lookup_ne k2 k sm hne

theorem foldl_smApply_notmem (us : List (Bytes × Mut)) :
    ∀ (sm : List (Bytes × Bytes)) (k : Bytes), k ∉ us.map Prod.fst →
    lookupSm (us.foldl smApply sm) k = lookupSm sm k := by
  induction us with
  | nil => intro sm k _; rfl
  | cons u rest ih =>
    intro sm k hk
    rw [List.map_cons, List.mem_cons] at hk
    push_neg at hk
    rw [List.foldl_cons, ih (smApply sm u) k hk.2,
      smApply_lookup_ne sm u k (Ne.symm hk.1)]

theorem applyKeyS_congr (sm1 sm2 g : List (Bytes × Bytes)) (k : Bytes)
    (hl : lookupSm sm1 k = lookupSm sm2 k) :
    applyKeyS sm1 g k = applyKeyS sm2 g k := by
  unfold applyKeyS
  rw [hl]

theorem runPass_fst_sm (ms : MockState) (hph : HexPatriciaHashed)
    (us : List (Bytes × Mut)) :
    ((runPass ms hph us).1).sm = us.foldl smApply ms.sm := rfl

theorem runPass_engine_grid (ms : MockState) (hph : HexPatriciaHashed)
    (us : List (Bytes × Mut)) :
    ((runPass ms hph us).2.1).grid =
      (us.map Prod.fst).foldl (applyKeyS (us.foldl smApply ms.sm)) hph.grid := rfl

theorem runPass_root (ms : MockState) (hph : HexPatriciaHashed)
    (us : List (Bytes × Mut)) :
    (runPass ms hph us).2.2 =
      rootOf ((us.map Prod.fst).foldl (applyKeyS (us.foldl smApply ms.sm))
        hph.grid) := rfl

theorem seq_grid_eq (us : List (Bytes × Mut)) :
    ∀ (ms : MockState) (hph : HexPatriciaHashed),
    (us.map Prod.fst).Nodup →
    ((seqProcess ms hph us).2).grid =
      (us.map Prod.fst).foldl (applyKeyS (us.foldl smApply ms.sm)) hph.grid := by
  induction us with
  | nil => intro ms hph _; rfl
  | cons u rest ih =>
    intro ms hph h
    rw [List.map_cons, List.nodup_cons] at h
    obtain ⟨hku, hnd⟩ := h
    have hstep : seqProcess ms hph (u :: rest) =
        seqProcess (runPass ms hph [u]).1 (runPass ms hph [u]).2.1 rest := rfl
    rw [hstep, ih _ _ hnd]
    have hsm : ((runPass ms hph [u]).1).sm = smApply ms.sm u := rfl
    have hgr : ((runPass ms hph [u]).2.1).grid =
        applyKeyS (smApply ms.sm u) hph.grid u.1 := rfl
    rw [hsm, hgr, List.map_cons, List.foldl_cons, List.foldl_cons]
    have hacc : applyKeyS (smApply ms.sm u) hph.grid u.1 =
        applyKeyS (rest.foldl smApply (smApply ms.sm u)) hph.grid u.1 :=
      applyKeyS_congr _ _ _ _
        (foldl_smApply_notmem rest (smApply ms.sm u) u.1 hku).symm
    rw [hacc]

theorem seqU_grid_eq (us : List (Bytes × Mut)) :
    ∀ (ms : MockState) (hph : HexPatriciaHashed),
    ((seqProcessU ms hph us).2).grid = us.foldl applyUpd hph.grid := by
  induction us with
  | nil => intro ms hph; rfl
  | cons u rest ih =>
    intro ms hph
    have hstep : seqProcessU ms hph (u :: rest) =
        seqProcessU (runPassU ms hph [u]).1 (runPassU ms hph [u]).2.1 rest := rfl
    rw [hstep, ih]
    rfl

/-- C1.  Batch/sequential equivalence: for every update set with
pairwise distinct plain keys, processing it as one batch call
(ProcessKeys, and likewise ProcessUpdates) from any starting store and
engine yields the same root hash as processing it as a sequence of
single-update passes with the branch deltas persisted into the external
store between passes. -/
theorem batch_sequential_equivalence (ms : MockState) (hph : HexPatriciaHashed)
    (us : List (Bytes × Mut)) (hnd : (us.map Prod.fst).Nodup) :
    ((seqProcess ms hph us).2).RootHash = (runPass ms hph us).2.2 ∧
    ((seqProcessU ms hph us).2).RootHash = (runPassU ms hph us).2.2 := by
  constructor
  · unfold HexPatriciaHashed.RootHash
    rw [seq_grid_eq us ms hph hnd, runPass_root]
  · unfold HexPatriciaHashed.RootHash
    rw [seqU_grid_eq us ms hph]
    rfl

/-- C1 witness at a concrete four-update set with distinct keys. -/
theorem batch_sequential_equivalence_witness :
    (usW.map Prod.fst).Nodup ∧
    (((seqProcess NewMockState (NewHexPatriciaHashed 1) usW).2).RootHash =
        (runPass NewMockState (NewHexPatriciaHashed 1) usW).2.2 ∧
      ((seqProcessU NewMockState (NewHexPatriciaHashed 1) usW).2).RootHash =
        (runPassU NewMockState (NewHexPatriciaHashed 1) usW).2.2) :=
  ⟨by decide, batch_sequential_equivalence NewMockState (NewHexPatriciaHashed 1)
    usW (by decide)⟩

/-- C6.  For every store and engine state, a ProcessKeys call with an
empty key list (and likewise a ProcessUpdates call with an empty update
list) returns the unchanged root hash and leaves RootHash unchanged,
even without an intervening Reset. -/
theorem empty_pass_preserves_root (ms : MockState) (hph : HexPatriciaHashed) :
    (hph.ProcessKeys ms []).2.1 = hph.RootHash ∧
    ((hph.ProcessKeys ms []).1).RootHash = hph.RootHash ∧
    (hph.ProcessUpdates []).2.1 = hph.RootHash ∧
    ((hph.ProcessUpdates []).1).RootHash = hph.RootHash :=
  ⟨rfl, rfl, rfl, rfl⟩

theorem readPairs_append (g : List (Bytes × Bytes)) (rest : Bytes) :
    readPairs g.length (encPairs g ++ rest) = some (g, rest) := by
  induction g with
  | nil => rfl
  | cons kv g ih =>
    simp [encPairs, readPairs, List.cons_append, List.append_assoc,
      readN_append, ih]

theorem decodeGrid_encodeGrid (g : List (Bytes × Bytes)) :
    decodeGrid (encodeGrid g) = some g := by
  have h := readPairs_append g []
  rw [List.append_nil] at h
  simp [decodeGrid, encodeGrid, h]

/-- C3.  Resume equivalence: for an engine that has processed an update
set u1, restoring its encoded current state into a fresh instance gives
an engine whose RootHash immediately equals the root hash of the
original, and which, fed a further update set u2, computes the same
root hash as the uninterrupted original engine would. -/
theorem resume_equivalence (ms : MockState) (hph hfresh e2 : HexPatriciaHashed)
    (u1 u2 : List (Bytes × Mut))
    (hres : hfresh.SetState (((runPass ms hph u1).2.1).EncodeCurrentState) =
      some e2) :
    e2.RootHash = ((runPass ms hph u1).2.1).RootHash ∧
    (runPass (runPass ms hph u1).1 e2 u2).2.2 =
      (runPass (runPass ms hph u1).1 (runPass ms hph u1).2.1 u2).2.2 := by
  have hrt : hfresh.SetState (((runPass ms hph u1).2.1).EncodeCurrentState) =
      some { hfresh with grid := ((runPass ms hph u1).2.1).grid } := by
    simp [HexPatriciaHashed.SetState, HexPatriciaHashed.EncodeCurrentState,
      decodeGrid_encodeGrid]
  rw [hres] at hrt
  have he2 : e2 = { hfresh with grid := ((runPass ms hph u1).2.1).grid } :=
    Option.some.inj hrt
  subst he2
  exact ⟨rfl, rfl⟩

/-- C3 witness at a concrete scenario: process usW, snapshot, restore
into a fresh engine, then continue with usW2. -/
theorem resume_equivalence_witness :
    ((NewHexPatriciaHashed 1).SetState ((rW.2.1).EncodeCurrentState) =
      some eW) ∧
    (eW.RootHash = (rW.2.1).RootHash ∧
      (runPass rW.1 eW usW2).2.2 = (runPass rW.1 rW.2.1 usW2).2.2) :=
  ⟨by decide, resume_equivalence NewMockState (NewHexPatriciaHashed 1)
    (NewHexPatriciaHashed 1) eW usW usW2 (by decide)⟩

set_option maxRecDepth 100000 in
/-- C8.  In the reset-then-singular-updates reference scenario, the
root hash of the second pass (one additional single-key storage update
after a Reset) differs from the first root hash, and after reverting
the store to the first update set, recomputing from a fresh reset
engine over the first update set reproduces the first root hash
exactly. -/
theorem reset_then_singular_updates :
    msPass2.2.2 ≠ msPass1.2.2 ∧ msPass3.2.2 = msPass1.2.2 := by
  constructor
  · decide
  · decide

/-- C9.  Every successful execution of opCallf (no error returned) and
every execution of opJumpf stores the program counter value obtained by
setting it to zero and subtracting one in unsigned 64-bit arithmetic,
that is, the stored value equals 2 to the 64 minus 1; the interpreter
loop pre-increment then lands at offset 0 of the new code section. -/
theorem section_jump_pc_underflow :
    (∀ pc s r, opCallf pc s = some r → r.2.2 = none → r.1 = u64 - 1) ∧
    (∀ pc s r, opJumpf pc s = some r → r.1 = u64 - 1) := by
  constructor
  · intro pc s r hc hnone
    simp only [opCallf, Option.bind_eq_bind] at hc
    cases h1 : s.Contract.codeSections.get? s.CodeSection with
    | none => rw [h1, Option.none_bind] at hc; exact absurd hc (by simp)
    | some code =>
      rw [h1, Option.some_bind] at hc
      cases h2 : code.get? (pc + 1) with
      | none => rw [h2, Option.none_bind] at hc; exact absurd hc (by simp)
      | some b0 =>
        rw [h2, Option.some_bind] at hc
        cases h3 : code.get? (pc + 2) with
        | none => rw [h3, Option.none_bind] at hc; exact absurd hc (by simp)
        | some b1 =>
          rw [h3, Option.some_bind] at hc
          cases h4 : s.Contract.Types.get? s.CodeSection with
          | none => rw [h4, Option.none_bind] at hc; exact absurd hc (by simp)
          | some typ =>
            rw [h4, Option.some_bind] at hc
            split at hc
            · rw [← Option.some.inj hc] at hnone
              simp at hnone
            · rw [← Option.some.inj hc]
              show u64sub 0 1 = u64 - 1
              decide
  · intro pc s r hc
    simp only [opJumpf, Option.bind_eq_bind] at hc
    cases h1 : s.Contract.codeSections.get? s.CodeSection with
    | none => rw [h1, Option.none_bind] at hc; exact absurd hc (by simp)
    | some code =>
      rw [h1, Option.some_bind] at hc
      cases h2 : code.get? (pc + 1) with
      | none => rw [h2, Option.none_bind] at hc; exact absurd hc (by simp)
      | some b0 =>
        rw [h2, Option.some_bind] at hc
        cases h3 : code.get? (pc + 2) with
        | none => rw [h3, Option.none_bind] at hc; exact absurd hc (by simp)
        | some b1 =>
          rw [h3, Option.some_bind] at hc
          rw [← Option.some.inj hc]
          show u64sub 0 1 = u64 - 1
          decide

/-- C9 witness: concrete successful opCallf and opJumpf executions both
store program counter 2 to the 64 minus 1. -/
theorem section_jump_pc_underflow_witness :
    (opCallf 0 scopeOk = some rOk ∧ rOk.2.2 = none ∧ rOk.1 = u64 - 1) ∧
    (opJumpf 0 scopeOk = some rJk ∧ rJk.1 = u64 - 1) :=
  ⟨⟨by decide, by decide,
      section_jump_pc_underflow.1 0 scopeOk rOk (by decide) (by decide)⟩,
    ⟨by decide, section_jump_pc_underflow.2 0 scopeOk rJk (by decide)⟩⟩

/-- C10 counterexample.  The claim says opCallf errors exactly when the
stack length plus the CALLEE maximal stack height reaches 1024.  On
scopeCx the callee is section 1 (the immediate operand decodes to 1)
whose declared maximal stack height is 0, so the claimed condition is
far below 1024 — yet opCallf returns the stack-overflow error, because
the source fetches the type entry of the CURRENT section, not the
callee. -/
theorem opCallf_callee_height_counterexample :
    opCallf 0 scopeCx = some (0, scopeCx, some VMErr.stackOverflow) ∧
    scopeCx.Stack.length +
      ((scopeCx.Contract.Types.get? 1).getD ⟨0, 0, 0⟩).MaxStackHeight < 1024 := by
  constructor
  · decide
  · decide

/-- C10 amended.  opCallf returns an error if and only if the current
stack length plus the declared maximal stack height of the CURRENT
(calling) code section is at least 1024; in the error case it leaves
everything unchanged — the program counter keeps its value and the
scope (return stack, code section) is returned untouched. -/
theorem opCallf_stack_overflow_guard (pc : Nat) (s : ScopeContext)
    (r : Nat × ScopeContext × Option VMErr) (hc : opCallf pc s = some r) :
    ((r.2.2).isSome ↔ 1024 ≤ s.Stack.length +
      ((s.Contract.Types.get? s.CodeSection).getD ⟨0, 0, 0⟩).MaxStackHeight) ∧
    ((r.2.2).isSome → r.1 = pc ∧ r.2.1 = s) := by
  simp only [opCallf, Option.bind_eq_bind] at hc
  cases h1 : s.Contract.codeSections.get? s.CodeSection with
  | none => rw [h1, Option.none_bind] at hc; exact absurd hc (by simp)
  | some code =>
    rw [h1, Option.some_bind] at hc
    cases h2 : code.get? (pc + 1) with
    | none => rw [h2, Option.none_bind] at hc; exact absurd hc (by simp)
    | some b0 =>
      rw [h2, Option.some_bind] at hc
      cases h3 : code.get? (pc + 2) with
      | none => rw [h3, Option.none_bind] at hc; exact absurd hc (by simp)
      | some b1 =>
        rw [h3, Option.some_bind] at hc
        cases h4 : s.Contract.Types.get? s.CodeSection with
        | none => rw [h4, Option.none_bind] at hc; exact absurd hc (by simp)
        | some typ =>
          rw [h4, Option.some_bind] at hc
          rw [Option.getD_some]
          by_cases hcond : 1024 ≤ s.Stack.length + typ.MaxStackHeight
          · rw [if_pos hcond] at hc
            rw [← Option.some.inj hc]
            simp [hcond]
          · rw [if_neg hcond] at hc
            rw [← Option.some.inj hc]
            simp [hcond]

/-- C10 amended witness at the concrete error scenario. -/
theorem opCallf_stack_overflow_guard_witness :
    opCallf 0 scopeCx = some rCx ∧
    (((rCx.2.2).isSome ↔ 1024 ≤ scopeCx.Stack.length +
        ((scopeCx.Contract.Types.get? scopeCx.CodeSection).getD
          ⟨0, 0, 0⟩).MaxStackHeight) ∧
      ((rCx.2.2).isSome → rCx.1 = 0 ∧ rCx.2.1 = scopeCx)) :=
  ⟨by decide, opCallf_stack_overflow_guard 0 scopeCx rCx (by decide)⟩
